import Mathlib

/-!
Verification of the ThreeCardPoker simulator core against its specification.

The Python sources embedded here are `threecardlookup.py` (the rank lookup
table) and `threecardpoker.py` (hand evaluation, wager multipliers and
bankroll settlement).  External collaborators (the deuces card library and
its 5-card evaluator) are modelled from the spec where noted.
-/

namespace ThreeCard

/-! ## ThreeCardLookup (threecardlookup.py) -/

/-- Source `ThreeCardLookup.PRIMES = [41, 2, 3, 5, 7, 11, 13, 17, 19, 23, 29, 31, 37, 41]`.
Index 0 and 13 are both the ace prime (ace plays low and high). -/
def primesList : List Nat := [41, 2, 3, 5, 7, 11, 13, 17, 19, 23, 29, 31, 37, 41]

/-- Indexing into `primesList`, as Python `self.PRIMES[i]`. -/
def PRIMES (i : Nat) : Nat := primesList.getD i 0

/-- Source constant `FLUSH_OFFSET = 430`. -/
def FLUSH_OFFSET : Nat := 430

def MIN_STRAIGHT_FLUSH : Nat := 1

def MAX_STRAIGHT_FLUSH : Nat := 12

def MIN_TRIPS : Nat := 13

def MAX_TRIPS : Nat := 25

def MIN_STRAIGHT : Nat := 431

def MAX_STRAIGHT : Nat := 442

def MIN_FLUSH : Nat := 443

def MAX_FLUSH : Nat := 716

def MIN_PAIR : Nat := 717

def MAX_PAIR : Nat := 872

def MIN_HIGH_CARD : Nat := 873

def MAX_HIGH_CARD : Nat := 1146

/-- Pair a list of keys with consecutive ranks starting at `r`, mirroring the
Python loops that insert `lookup[key] = rank; rank += 1`. -/
def assignRanks : Nat → List Nat → List (Nat × Nat)
  | _, [] => []
  | r, k :: ks => (k, r) :: assignRanks (r + 1) ks

/-- Keys of the straights loop: `for i in xrange(13, 1, -1):
PRIMES[i]*PRIMES[i-1]*PRIMES[i-2]`, i running 13 down to 2. -/
def straightKeys : List Nat :=
  (List.range 12).map (fun j => PRIMES (13 - j) * PRIMES (12 - j) * PRIMES (11 - j))

/-- The straights loop stores `rank + FLUSH_OFFSET` with `rank` starting at
`MIN_STRAIGHT_FLUSH = 1`, hence stored values 431..442. -/
def straightEntries : List (Nat × Nat) :=
  assignRanks (MIN_STRAIGHT_FLUSH + FLUSH_OFFSET) straightKeys

/-- Keys of the trips loop: `for i in xrange(13, 0, -1): PRIMES[i]**3`. -/
def tripKeys : List Nat := (List.range 13).map (fun j => PRIMES (13 - j) ^ 3)

/-- After the straights loop the running `rank` counter is 13; the trips loop
stores ranks 13..25. -/
def tripEntries : List (Nat × Nat) := assignRanks MIN_TRIPS tripKeys

/-- Key enumeration of the flush/high-card triple loop:
`c1` from 13 down to 1, `c2` from `c1-1` down to 1, `c3` from `c2-1` down to 1,
key `PRIMES[c1]*PRIMES[c2]*PRIMES[c3]`. -/
def hcTriples : List Nat :=
  ((List.range 13).map (fun j => 13 - j)).flatMap (fun c1 =>
    ((List.range (c1 - 1)).map (fun j => c1 - 1 - j)).flatMap (fun c2 =>
      ((List.range (c2 - 1)).map (fun j => c2 - 1 - j)).map (fun c3 =>
        PRIMES c1 * PRIMES c2 * PRIMES c3)))

/-- One step of the high-card loop: `if multiple not in self.lookup:
self.lookup[multiple] = rank; rank += 1`.  The state is the current table
together with the running rank counter. -/
def insertIfAbsent (st : List (Nat × Nat) × Nat) (k : Nat) : List (Nat × Nat) × Nat :=
  if st.1.any (fun e => e.1 = k) then st else (st.1 ++ [(k, st.2)], st.2 + 1)

/-- Table state after the flush/high-card loop: the dict already holds the
straight and trip entries, the counter restarts at `MIN_HIGH_CARD`. -/
def hcState : List (Nat × Nat) × Nat :=
  hcTriples.foldl insertIfAbsent (straightEntries ++ tripEntries, MIN_HIGH_CARD)

/-- Keys of the pairs loop: `for i in xrange(13, 0, -1): for kicker in
xrange(13, 0, -1): if kicker != i: PRIMES[i]**2 * PRIMES[kicker]`. -/
def pairKeys : List Nat :=
  ((List.range 13).map (fun j => 13 - j)).flatMap (fun i =>
    ((List.range 13).map (fun j => 13 - j)).filterMap (fun k =>
      if k ≠ i then some (PRIMES i ^ 2 * PRIMES k) else none))

/-- The full lookup dict built by `ThreeCardLookup.__init__`, as an
association list in insertion order (no key is ever written twice, which the
theorems below verify, so list append is faithful to dict assignment). -/
def tcEntries : List (Nat × Nat) := hcState.1 ++ assignRanks MIN_PAIR pairKeys

/-- Dict lookup `self.lookup[key]`; `none` models Python's `KeyError`. -/
def tcFind (k : Nat) : Option Nat := (tcEntries.find? (fun e => e.1 = k)).map (fun e => e.2)

/-- The key set of the lookup table. -/
def tcKeys : List Nat := tcEntries.map (fun e => e.1)

/-- Every multiset of 3 ranks out of 13, as index triples `a ≥ b ≥ c` in 1..13. -/
def allRankTriples : List (Nat × Nat × Nat) :=
  ((List.range 13).map (fun j => 13 - j)).flatMap (fun a =>
    ((List.range a).map (fun j => a - j)).flatMap (fun b =>
      ((List.range b).map (fun j => b - j)).map (fun c => (a, b, c))))

/-- The prime-product key of every possible 3-rank combination. -/
def allRankProducts : List Nat :=
  allRankTriples.map (fun t => PRIMES t.1 * PRIMES t.2.1 * PRIMES t.2.2)

/-! ## Card encoding (external deuces library, modelled from the spec) -/

/-- Modelled from the spec: the deuces card oracle assigns each of the 13
ranks (2..A as 0..12) a distinct small prime occupying the card's low byte. -/
def deucesPrimes : List Nat := [2, 3, 5, 7, 11, 13, 17, 19, 23, 29, 31, 37, 41]

/-- The rank prime of rank `r` (0 = deuce .. 12 = ace). -/
def dPrime (r : Nat) : Nat := deucesPrimes.getD r 0

/-- Modelled from the spec: the card bit layout of the external card oracle.
A card integer carries its rank prime in the low byte, its rank integer in
bits 8..11, a single suit bit in the high nibble 12..15 (suit 0..3), and a
one-hot rank bit at 16 + rank. -/
def encodeCard (r s : Nat) : Nat :=
  (1 <<< (16 + r)) ||| (1 <<< (12 + s)) ||| (r <<< 8) ||| dPrime r

/-- Modelled from the spec: the 52-card deck supplied by the card oracle. -/
def deckList : List Nat :=
  (List.range 13).flatMap (fun r => (List.range 4).map (fun s => encodeCard r s))

/-- A hand is an ordered triple of card integers (one row of the hands array). -/
def Hand : Type := Nat × Nat × Nat

/-- A valid card is one of the 52 deck encodings. -/
def ValidCard (c : Nat) : Prop := c ∈ deckList

instance (c : Nat) : Decidable (ValidCard c) := by
  unfold ValidCard; infer_instance

/-- A valid hand consists of three valid cards. -/
def ValidHand (h : Hand) : Prop := ValidCard h.1 ∧ ValidCard h.2.1 ∧ ValidCard h.2.2

instance (h : Hand) : Decidable (ValidHand h) := by
  unfold ValidHand; exact instDecidableAnd

/-! ## Hand evaluation (threecardpoker.py, `evaluate_hand` / `evaluate_hands`) -/

/-- Source `ThreeCardPoker.evaluate_hand`: fold `prime *= card & 0xFF` and
`suit &= card` (initialised to 1 and 0xF000) over the three cards, then
`lookup[prime] - suited * FLUSH_OFFSET` with `suited = 1 if suit else 0`.
The `Option` captures the `KeyError` on a corrupt key. -/
def evaluate_hand (h : Hand) : Option Int :=
  let prime := 1 * (h.1 &&& 0xFF) * (h.2.1 &&& 0xFF) * (h.2.2 &&& 0xFF)
  let suit := 0xF000 &&& h.1 &&& h.2.1 &&& h.2.2
  let suited : Int := if suit ≠ 0 then 1 else 0
  (tcFind prime).map (fun v => (v : Int) - suited * (FLUSH_OFFSET : Int))

/-- The all-ones pattern of a 32-bit integer; numpy `np.invert` on an `int32`
array complements this bit pattern. -/
def MASK32 : Nat := 0xFFFFFFFF

/-- Source `ThreeCardPoker.evaluate_hands`, per array row: rank bytes
`hands & 0xFF` multiplied together, flush detection via De Morgan
`~(invert(c0) | invert(c1) | invert(c2)) & 0xF000` selecting a
`FLUSH_OFFSET` or 0 adjustment, then the vectorized table lookup minus the
adjustment. -/
def evalHandsRow (h : Hand) : Option Int :=
  let ranks := (h.1 &&& 0xFF, h.2.1 &&& 0xFF, h.2.2 &&& 0xFF)
  let primeProd := ranks.1 * ranks.2.1 * ranks.2.2
  let flushAdj : Int :=
    if (MASK32 ^^^ ((MASK32 ^^^ h.1) ||| (MASK32 ^^^ h.2.1) ||| (MASK32 ^^^ h.2.2))) &&& 0xF000 ≠ 0
    then (FLUSH_OFFSET : Int) else 0
  (tcFind primeProd).map (fun v => (v : Int) - flushAdj)

/-- The whole-batch evaluator: one value per hand row. -/
def evaluate_hands (hs : List Hand) : List (Option Int) := hs.map evalHandsRow

/-! ## Wager multipliers (threecardpoker.py, `GenerateMultipliers`) -/

/-- numpy `np.copysign(a, b)` on integer data: the magnitude of `a` carrying
the sign of `b`, where `b = 0` counts as positive (the sign of `+0.0`). -/
def np_copysign (a b : Int) : Int := if b < 0 then -|a| else |a|

/-- The face-up rank extraction `(card >> 8) & 0xF` used on the first dealer
card of each round. -/
def rankOfCard (c : Nat) : Nat := (c >>> 8) &&& 0xF

/-- `ACE_HIGH = self.evaluate_hand(Card.hand_to_binary(['Ac','2d','4d']))`:
the weakest ace-high hand value. -/
def ACE_HIGH : Int := (evaluate_hand (encodeCard 12 3, encodeCard 0 2, encodeCard 2 2)).getD 0

/-- `KING_HIGH = self.evaluate_hand(Card.hand_to_binary(['Kc','2d','3d']))`. -/
def KING_HIGH : Int := (evaluate_hand (encodeCard 11 3, encodeCard 0 2, encodeCard 1 2)).getD 0

/-- `QUEEN_HIGH = self.evaluate_hand(Card.hand_to_binary(['Qc','2d','3d']))`. -/
def QUEEN_HIGH : Int := (evaluate_hand (encodeCard 10 3, encodeCard 0 2, encodeCard 1 2)).getD 0

/-- `ACE = Card.get_rank_int(Card.new('Ac'))`: the ace rank integer, read off
the card encoding. -/
def ACE : Nat := rankOfCard (encodeCard 12 3)

/-- `KING = Card.get_rank_int(Card.new('Kc'))`. -/
def KING : Nat := rankOfCard (encodeCard 11 3)

/-- `QUEEN = Card.get_rank_int(Card.new('Qc'))`. -/
def QUEEN : Nat := rankOfCard (encodeCard 10 3)

/-- The house-way play decision (first assignment to `play_multipliers`):
play ace-high or better always; king-high only against a face-up card below
ace; queen-high only against a face-up card below king; otherwise fold. -/
def playDecision (P : Int) (faceUpRank : Nat) : Int :=
  if P ≤ ACE_HIGH then 1
  else if P ≤ KING_HIGH then (if faceUpRank < ACE then 1 else 0)
  else if P ≤ QUEEN_HIGH then (if faceUpRank < KING then 1 else 0)
  else 0

/-- The Pair-Plus sweep (`pair_plus_multipliers[:] = ...`): forfeit on a
fold, else upper-bound comparisons against the band maxima from weakest to
strongest. -/
def pairPlusMult (play0 P : Int) : Int :=
  if play0 = 0 then -1
  else if P > (MAX_PAIR : Int) then -1
  else if P > (MAX_FLUSH : Int) then 1
  else if P > (MAX_STRAIGHT : Int) then 3
  else if P > (MAX_TRIPS : Int) then 6
  else if P > (MAX_STRAIGHT_FLUSH : Int) then 30
  else if P > 1 then 40
  else 50

/-- Modelled from the spec: the published band boundaries of the external
5-card hand-strength oracle (deuces `evaluator.table`), abstracted as an
arbitrary parameter record. -/
structure SixCardBounds where
  maxStraightFlush : Int
  maxQuads : Int
  maxFullHouse : Int
  maxFlush : Int
  maxStraight : Int
  maxTrips : Int

/-- The 6-card bonus payout sweep (`six_card_multipliers[:] = ...`). -/
def sixSweep (b : SixCardBounds) (v : Int) : Int :=
  if v > b.maxTrips then -1
  else if v > b.maxStraight then 5
  else if v > b.maxFlush then 10
  else if v > b.maxFullHouse then 15
  else if v > b.maxQuads then 25
  else if v > b.maxStraightFlush then 50
  else if v > 1 then 200
  else 1000

/-- The four wager multipliers of one player hand. -/
structure Mults where
  play : Int
  ante : Int
  pairPlus : Int
  sixCard : Int

/-- Source `GenerateMultipliers`, restricted to one (round, player) cell.
`oracle` is the external 5-card evaluator `evaluator._six` applied to the
dealer's three cards followed by the player's three (the `eval_hands`
slices); `D` and `P` are the dealer and player entries of `hand_values`.
`win_lose = np.copysign(1, dealer_values - player_values)`; the play
decision feeds Pair-Plus and Ante before being overwritten by the final
Play resolution. -/
def generateMultipliersCell (b : SixCardBounds) (oracle : Hand → Hand → Int)
    (dealerHand : Hand) (D P : Int) (playerHand : Hand) : Mults :=
  let faceUpRank := rankOfCard dealerHand.1
  let winLose := np_copysign 1 (D - P)
  let play0 := playDecision P faceUpRank
  let pairPlus := pairPlusMult play0 P
  let ante :=
    if play0 = 0 then -1
    else if winLose > -1 then winLose
    else if D ≤ QUEEN_HIGH then -1 else 0
  let play := if D ≤ QUEEN_HIGH then play0 * winLose else 0
  let six := sixSweep b (oracle dealerHand playerHand)
  ⟨play, ante, pairPlus, six⟩

/-- One round of `GenerateMultipliers`: the dealer hand and value against the
list of player hands and values. -/
def GenerateMultipliersRound (b : SixCardBounds) (oracle : Hand → Hand → Int)
    (dealerHand : Hand) (D : Int) (players : List (Hand × Int)) : List Mults :=
  players.map (fun p => generateMultipliersCell b oracle dealerHand D p.2 p.1)

/-! ## Bankroll settlement (threecardpoker.py, `AdjustForAction`) -/

/-- The settlement loop for spots after the first, carrying the cumulative
absolute payout `a` (that is `cum_payout[:, i-1]`): full value while
`cum_payout[:, i] < bank_amount`, else the remaining capital
`copysign(bank_amount - cum_payout[:, i-1], payout)` if the bank was not yet
exhausted, else 0. -/
def adjTail (bank : Int) : Int → List Int → List Int
  | _, [] => []
  | a, p :: ps =>
    if a + |p| < bank then p :: adjTail bank (a + |p|) ps
    else if a < bank then np_copysign (bank - a) p :: adjTail bank (a + |p|) ps
    else 0 :: adjTail bank (a + |p|) ps

/-- Source `AdjustForAction`, one round: the first spot settles at full value
when `cum_payout[:,0] < bank_amount`, else at `copysign(bank_amount, p0)`;
later spots follow `adjTail`. -/
def AdjustForAction (bank : Int) : List Int → List Int
  | [] => []
  | p :: ps => (if |p| < bank then p else np_copysign bank p) :: adjTail bank |p| ps

/-! ## Verification utilities: a fuel-based (kernel-reducible) merge sort,
used to check key-set equality and distinctness of the lookup table. -/

/-- Merge two lists in nondecreasing order; the fuel argument makes the
recursion structural. -/
def mergeF : Nat → List Nat → List Nat → List Nat
  | 0, xs, ys => xs ++ ys
  | _ + 1, [], ys => ys
  | _ + 1, x :: xs, [] => x :: xs
  | n + 1, x :: xs, y :: ys =>
    if x ≤ y then x :: mergeF n xs (y :: ys) else y :: mergeF n (x :: xs) ys

/-- One bottom-up merge pass. -/
def mergePairs : List (List Nat) → List (List Nat)
  | a :: b :: t => mergeF (a.length + b.length) a b :: mergePairs t
  | l => l

/-- Iterate merge passes; 16 passes suffice for lists up to 2^16 elements. -/
def mergeAll : Nat → List (List Nat) → List Nat
  | 0, ls => ls.flatten
  | n + 1, ls => mergeAll n (mergePairs ls)

/-- Sort a list of naturals. -/
def sortNat (l : List Nat) : List Nat := mergeAll 16 (l.map (fun x => [x]))

/-- Check that a list is strictly increasing. -/
def strictChainB : List Nat → Bool
  | [] => true
  | [_] => true
  | a :: b :: t => a < b && strictChainB (b :: t)

/-! ## Helper lemmas -/

/-- Merging is a permutation of appending. -/
theorem mergeF_perm : ∀ (n : Nat) (xs ys : List Nat), List.Perm (mergeF n xs ys) (xs ++ ys) := by
  intro n
  induction n with
  | zero => intro xs ys; exact List.Perm.refl _
  | succ n ih =>
    intro xs ys
    match xs, ys with
    | [], ys => simp [mergeF]
    | x :: xs, [] => simp [mergeF]
    | x :: xs, y :: ys =>
      simp only [mergeF]
      split
      · exact List.Perm.cons x (ih xs (y :: ys))
      · exact (List.Perm.cons y (ih (x :: xs) ys)).trans List.perm_middle.symm

/-- A merge pass preserves the flattened contents up to permutation. -/
theorem mergePairs_flatten_perm : ∀ ls : List (List Nat),
    List.Perm (mergePairs ls).flatten ls.flatten := by
  intro ls
  match ls with
  | [] => exact List.Perm.refl _
  | [a] => exact List.Perm.refl _
  | a :: b :: t =>
    have ih := mergePairs_flatten_perm t
    simp only [mergePairs, List.flatten_cons]
    have h1 : List.Perm (mergeF (a.length + b.length) a b ++ (mergePairs t).flatten)
        ((a ++ b) ++ t.flatten) := List.Perm.append (mergeF_perm _ _ _) ih
    have h2 : (a ++ b) ++ t.flatten = a ++ (b ++ t.flatten) := by rw [List.append_assoc]
    exact h2 ▸ h1

/-- Iterated merge passes permute the flattened contents. -/
theorem mergeAll_perm : ∀ (n : Nat) (ls : List (List Nat)), List.Perm (mergeAll n ls) ls.flatten := by
  intro n
  induction n with
  | zero => intro ls; exact List.Perm.refl _
  | succ n ih =>
    intro ls
    exact (ih (mergePairs ls)).trans (mergePairs_flatten_perm ls)

/-- Sorting permutes the input. -/
theorem sortNat_perm (l : List Nat) : List.Perm (sortNat l) l := by
  have hflat : ∀ m : List Nat, ((m.map (fun x => [x])).flatten) = m := by
    intro m
    induction m with
    | nil => rfl
    | cons x xs ih => simp [ih]
  exact (mergeAll_perm 16 _).trans (by rw [hflat])

/-- A strictly increasing list is pairwise increasing. -/
theorem strictChainB_pairwise : ∀ l : List Nat, strictChainB l = true →
    l.Pairwise (fun a b => a < b) := by
  intro l
  match l with
  | [] => intro _; exact List.Pairwise.nil
  | [a] => intro _; simp
  | a :: b :: t =>
    intro h
    simp only [strictChainB, Bool.and_eq_true, decide_eq_true_eq] at h
    have ih := strictChainB_pairwise (b :: t) h.2
    refine List.Pairwise.cons ?_ ih
    intro x hx
    rcases List.mem_cons.mp hx with hxb | hxt
    · exact hxb ▸ h.1
    · exact lt_trans h.1 ((List.pairwise_cons.mp ih).1 x hxt)

/-- A strictly increasing list has no duplicates. -/
theorem strictChainB_nodup (l : List Nat) (h : strictChainB l = true) : l.Nodup :=
  (strictChainB_pairwise l h).imp (fun hlt => Nat.ne_of_lt hlt)

/-- De Morgan on 32-bit complements: the numpy pipeline
`~(~x | ~y | ~z)` equals `x & y & z` for values fitting in 32 bits. -/
theorem demorgan32 (x y z : Nat) (hx : x < 2 ^ 32) (hy : y < 2 ^ 32) (hz : z < 2 ^ 32) :
    MASK32 ^^^ ((MASK32 ^^^ x) ||| (MASK32 ^^^ y) ||| (MASK32 ^^^ z)) = x &&& y &&& z := by
  have hmask : MASK32 = 2 ^ 32 - 1 := by norm_num [MASK32]
  apply Nat.eq_of_testBit_eq
  intro i
  by_cases h : i < 32
  · simp only [hmask, Nat.testBit_xor, Nat.testBit_or, Nat.testBit_and,
      Nat.testBit_two_pow_sub_one, h, decide_True]
    cases x.testBit i <;> cases y.testBit i <;> cases z.testBit i <;> rfl
  · have h32 : (2 : Nat) ^ 32 ≤ 2 ^ i := Nat.pow_le_pow_right (by norm_num) (Nat.le_of_not_lt h)
    have hxt : x.testBit i = false := Nat.testBit_lt_two_pow (lt_of_lt_of_le hx h32)
    have hyt : y.testBit i = false := Nat.testBit_lt_two_pow (lt_of_lt_of_le hy h32)
    have hzt : z.testBit i = false := Nat.testBit_lt_two_pow (lt_of_lt_of_le hz h32)
    simp only [hmask, Nat.testBit_xor, Nat.testBit_or, Nat.testBit_and,
      Nat.testBit_two_pow_sub_one, h, decide_False, hxt, hyt, hzt]
    rfl

/-- Every deck card encoding fits in 32 bits. -/
theorem deck_lt_two_pow_32 : ∀ c ∈ deckList, c < 2 ^ 32 := by decide

/-- The low byte of a card encoding is its rank prime. -/
theorem encodeCard_low_byte :
    ∀ (r : Fin 13) (s : Fin 4), encodeCard r.val s.val &&& 0xFF = dPrime r.val := by decide

/-- Masking a card with the suit nibble isolates its single suit bit. -/
theorem suitMask_encodeCard :
    ∀ (r : Fin 13) (s : Fin 4), 0xF000 &&& encodeCard r.val s.val = 1 <<< (12 + s.val) := by
  decide

/-- A single suit bit survives conjunction with a card exactly when the suits
agree. -/
theorem suitBit_land_encodeCard :
    ∀ (s : Fin 4) (r : Fin 13) (t : Fin 4),
      (1 <<< (12 + s.val)) &&& encodeCard r.val t.val =
        if s = t then 1 <<< (12 + s.val) else 0 := by decide

/-- Suit bits are nonzero. -/
theorem suitBit_ne_zero : ∀ s : Fin 4, 1 <<< (12 + s.val) ≠ 0 := by decide

/-- The rank field of a card encoding is its rank integer. -/
theorem rankOfCard_encodeCard :
    ∀ (r : Fin 13) (s : Fin 4), rankOfCard (encodeCard r.val s.val) = r.val := by decide

/-- The magnitude of a numpy copysign is the magnitude of its first argument. -/
theorem abs_np_copysign (a b : Int) : |np_copysign a b| = |a| := by
  unfold np_copysign
  split <;> simp [abs_abs]

/-- Once the bank is exhausted, every later spot settles at zero. -/
theorem adjTail_exhausted (bank : Int) :
    ∀ (ps : List Int) (a : Int), bank ≤ a → adjTail bank a ps = ps.map (fun _ => 0) := by
  intro ps
  induction ps with
  | nil => intro a _; rfl
  | cons p ps ih =>
    intro a ha
    have ha2 : bank ≤ a + |p| := le_add_of_le_of_nonneg ha (abs_nonneg p)
    unfold adjTail
    rw [if_neg (by omega), if_neg (by omega), ih (a + |p|) ha2]
    rfl

/-- The settled magnitudes after the first spot total at most the remaining
capital. -/
theorem adjTail_sum_abs_le (bank : Int) :
    ∀ (ps : List Int) (a : Int), 0 ≤ a →
      ((adjTail bank a ps).map (fun p => |p|)).sum ≤ max (bank - a) 0 := by
  intro ps
  induction ps with
  | nil =>
    intro a _
    simp only [adjTail, List.map_nil, List.sum_nil]
    exact le_max_right _ _
  | cons p ps ih =>
    intro a ha
    have habs : 0 ≤ |p| := abs_nonneg p
    unfold adjTail
    by_cases h1 : a + |p| < bank
    · rw [if_pos h1]
      have htail := ih (a + |p|) (by omega)
      simp only [List.map_cons, List.sum_cons]
      have hmax1 : max (bank - (a + |p|)) 0 = bank - (a + |p|) := max_eq_left (by omega)
      have hmax2 : max (bank - a) 0 = bank - a := max_eq_left (by omega)
      rw [hmax1] at htail
      rw [hmax2]
      omega
    · rw [if_neg h1]
      by_cases h2 : a < bank
      · rw [if_pos h2]
        have hz := adjTail_exhausted bank ps (a + |p|) (by omega)
        rw [hz]
        simp only [List.map_cons, List.sum_cons, List.map_map]
        have hzero : ((ps.map (fun _ => (0 : Int))).map (fun p => |p|)).sum = 0 := by
          simp [List.map_map, Function.comp]
        simp only [List.map_map] at hzero
        rw [abs_np_copysign, hzero]
        have hb : |bank - a| = bank - a := abs_of_nonneg (by omega)
        have hmax2 : max (bank - a) 0 = bank - a := max_eq_left (by omega)
        omega
      · rw [if_neg h2]
        have hz := adjTail_exhausted bank ps (a + |p|) (by omega)
        rw [hz]
        simp [List.map_map, Function.comp]

/-- Triangle inequality for list sums of integers. -/
theorem list_abs_sum_le (l : List Int) : |l.sum| ≤ (l.map (fun p => |p|)).sum := by
  induction l with
  | nil => simp
  | cons p ps ih =>
    simp only [List.sum_cons, List.map_cons]
    calc |p + ps.sum| ≤ |p| + |ps.sum| := abs_add _ _
      _ ≤ |p| + (ps.map (fun p => |p|)).sum := by omega

/-- The settled magnitudes of a whole round total at most a positive bank. -/
theorem adjust_sum_abs_le (bank : Int) (ps : List Int) (hbank : 0 < bank) :
    ((AdjustForAction bank ps).map (fun p => |p|)).sum ≤ bank := by
  cases ps with
  | nil => simpa [AdjustForAction] using le_of_lt hbank
  | cons p ps =>
    show (((if |p| < bank then p else np_copysign bank p) :: adjTail bank |p| ps).map
      (fun p => |p|)).sum ≤ bank
    have habs : 0 ≤ |p| := abs_nonneg p
    by_cases h1 : |p| < bank
    · rw [if_pos h1]
      have htail := adjTail_sum_abs_le bank ps |p| habs
      simp only [List.map_cons, List.sum_cons]
      have hmax : max (bank - |p|) 0 = bank - |p| := max_eq_left (by omega)
      rw [hmax] at htail
      omega
    · rw [if_neg h1]
      have hz := adjTail_exhausted bank ps |p| (by omega)
      rw [hz]
      simp only [List.map_cons, List.sum_cons, List.map_map]
      have hzero : ((ps.map (fun _ => (0 : Int))).map (fun p => |p|)).sum = 0 := by
        simp [List.map_map, Function.comp]
      simp only [List.map_map] at hzero
      rw [abs_np_copysign, hzero]
      have hb : |bank| = bank := abs_of_nonneg (by omega)
      omega

/-! ## Claim theorems -/

set_option maxRecDepth 100000 in
set_option maxHeartbeats 4000000 in
/-- Claim C2, counterexample: the lookup table built by the constructor has
455 entries (286 distinct-rank products + 156 pairs + 13 trips), not 741;
741 counts distinct hand strengths including the derived suited bands, which
are never stored. -/
theorem c2_table_not_741 : tcEntries.length = 455 ∧ tcEntries.length ≠ 741 := by
  have h : tcEntries.length = 455 := by rfl
  exact ⟨h, by omega⟩

set_option maxRecDepth 100000 in
set_option maxHeartbeats 4000000 in
/-- Claim C2, amended: the lookup table contains exactly 455 entries with
pairwise distinct prime-product keys, and its key set is a permutation of
the prime products of all 455 possible 3-rank combinations (no repeats, one
pair, or a trip) — every combination appears exactly once, with no
collisions and no gaps. -/
theorem c2_table_complete :
    tcEntries.length = 455 ∧ tcKeys.Nodup ∧ allRankProducts.Nodup ∧
      tcKeys.Perm allRankProducts := by
  have hlen : tcEntries.length = 455 := by rfl
  have heq : sortNat tcKeys = sortNat allRankProducts := by rfl
  have hchain : strictChainB (sortNat tcKeys) = true := by rfl
  have hsortedNodup : (sortNat tcKeys).Nodup := strictChainB_nodup _ hchain
  have hp1 : List.Perm (sortNat tcKeys) tcKeys := sortNat_perm tcKeys
  have hp2 : List.Perm (sortNat allRankProducts) allRankProducts := sortNat_perm allRankProducts
  refine ⟨hlen, hp1.nodup hsortedNodup, ?_, ?_⟩
  · exact hp2.nodup (heq ▸ hsortedNodup)
  · exact hp1.symm.trans (heq ▸ hp2)

/-- Claim C3: on the round `[+3000, -4000, +1000]` a 5000 bank pays the first
spot in full, clips the second to the remaining 2000 with its original sign,
and zeroes the third; a 10000 bank settles all three unchanged. -/
theorem c3_settlement_example :
    AdjustForAction 5000 [3000, -4000, 1000] = [3000, -2000, 0] ∧
      AdjustForAction 10000 [3000, -4000, 1000] = [3000, -4000, 1000] := by decide

/-- Claim C6: the settled payouts of a round never exceed a positive bank in
total magnitude, in both the net-sum and the absolute-sum reading. -/
theorem c6_settled_within_bank (bank : Int) (ps : List Int) (hbank : 0 < bank) :
    |(AdjustForAction bank ps).sum| ≤ bank ∧
      ((AdjustForAction bank ps).map (fun p => |p|)).sum ≤ bank := by
  have h2 := adjust_sum_abs_le bank ps hbank
  exact ⟨le_trans (list_abs_sum_le _) h2, h2⟩

/-- Witness for C6 at bank 5000 and spots `[+3000, -4000, +1000]`. -/
theorem c6_settled_within_bank_witness :
    (0 : Int) < 5000 ∧
      (|(AdjustForAction 5000 [3000, -4000, 1000]).sum| ≤ 5000 ∧
        ((AdjustForAction 5000 [3000, -4000, 1000]).map (fun p => |p|)).sum ≤ 5000) :=
  ⟨by decide, c6_settled_within_bank 5000 [3000, -4000, 1000] (by decide)⟩

set_option maxRecDepth 100000 in
/-- The weakest ace-high hand evaluates to 936. -/
theorem ACE_HIGH_eq : ACE_HIGH = 936 := by rfl

set_option maxRecDepth 100000 in
/-- The weakest king-high hand evaluates to 990. -/
theorem KING_HIGH_eq : KING_HIGH = 990 := by rfl

set_option maxRecDepth 100000 in
/-- The weakest queen-high hand evaluates to 1034. -/
theorem QUEEN_HIGH_eq : QUEEN_HIGH = 1034 := by rfl

/-- The ace rank integer is 12. -/
theorem ACE_eq : ACE = 12 := by rfl

/-- The king rank integer is 11. -/
theorem KING_eq : KING = 11 := by rfl

/-- Claim C7: on any three validly encoded cards, the evaluated value is the
table value of the product of the three rank primes, exactly `FLUSH_OFFSET`
lower when all three suits agree, and depends on the suits only through
that flush condition. -/
theorem c7_value_is_lookup_minus_offset :
    ∀ (r0 r1 r2 : Fin 13) (s0 s1 s2 : Fin 4),
      evaluate_hand (encodeCard r0.val s0.val, encodeCard r1.val s1.val,
          encodeCard r2.val s2.val) =
        (tcFind (dPrime r0.val * dPrime r1.val * dPrime r2.val)).map
          (fun v => (v : Int) - (if s0 = s1 ∧ s1 = s2 then (FLUSH_OFFSET : Int) else 0)) := by
  intro r0 r1 r2 s0 s1 s2
  simp only [evaluate_hand]
  rw [encodeCard_low_byte r0 s0, encodeCard_low_byte r1 s1, encodeCard_low_byte r2 s2,
    one_mul, suitMask_encodeCard r0 s0, suitBit_land_encodeCard s0 r1 s1]
  by_cases h01 : s0 = s1
  · rw [if_pos h01, suitBit_land_encodeCard s0 r2 s2]
    by_cases h02 : s0 = s2
    · rw [if_pos h02, if_pos (suitBit_ne_zero s0), if_pos ⟨h01, h01.symm.trans h02⟩]
      simp
    · rw [if_neg h02, if_neg (fun hz : (0 : Nat) ≠ 0 => hz rfl),
        if_neg (fun hp : s0 = s1 ∧ s1 = s2 => h02 (hp.1.trans hp.2))]
      simp
  · rw [if_neg h01, Nat.zero_and, if_neg (fun hz : (0 : Nat) ≠ 0 => hz rfl),
      if_neg (fun hp : s0 = s1 ∧ s1 = s2 => h01 hp.1)]
    simp

/-- The vectorized evaluator row agrees with the scalar evaluator on any
valid hand. -/
theorem evalHandsRow_eq_evaluate_hand (h : Hand) (hv : ValidHand h) :
    evalHandsRow h = evaluate_hand h := by
  obtain ⟨h0, h1, h2⟩ := hv
  have l0 : h.1 < 2 ^ 32 := deck_lt_two_pow_32 h.1 h0
  have l1 : h.2.1 < 2 ^ 32 := deck_lt_two_pow_32 h.2.1 h1
  have l2 : h.2.2 < 2 ^ 32 := deck_lt_two_pow_32 h.2.2 h2
  simp only [evalHandsRow, evaluate_hand, one_mul]
  rw [demorgan32 h.1 h.2.1 h.2.2 l0 l1 l2]
  have hcomm : h.1 &&& h.2.1 &&& h.2.2 &&& 0xF000 = 0xF000 &&& h.1 &&& h.2.1 &&& h.2.2 := by
    rw [Nat.land_comm (h.1 &&& h.2.1 &&& h.2.2) 0xF000, ← Nat.land_assoc, ← Nat.land_assoc]
  rw [hcomm]
  by_cases hflush : 0xF000 &&& h.1 &&& h.2.1 &&& h.2.2 ≠ 0
  · rw [if_pos hflush, if_pos hflush]
    simp
  · rw [if_neg hflush, if_neg hflush]
    simp

/-- Claim C9: on a batch of valid hands the vectorized evaluator returns, at
each index, exactly what the per-hand evaluator returns on that hand. -/
theorem c9_vectorized_matches_scalar (hs : List Hand) (hv : ∀ h ∈ hs, ValidHand h) :
    evaluate_hands hs = hs.map evaluate_hand :=
  List.map_congr_left (fun h hm => evalHandsRow_eq_evaluate_hand h (hv h hm))

/-- Witness for C9 on a one-hand batch. -/
theorem c9_vectorized_matches_scalar_witness :
    (∀ h ∈ ([(encodeCard 12 3, encodeCard 0 2, encodeCard 2 2)] : List Hand), ValidHand h) ∧
      evaluate_hands [(encodeCard 12 3, encodeCard 0 2, encodeCard 2 2)] =
        ([(encodeCard 12 3, encodeCard 0 2, encodeCard 2 2)] : List Hand).map evaluate_hand :=
  ⟨by decide, c9_vectorized_matches_scalar _ (by decide)⟩

set_option maxRecDepth 100000 in
/-- Claim C1 (code bug exhibit): dealer K♣K♦2♣ and player K♥K♠2♦ both
evaluate to 740 — a tie — the hand is played and the dealer qualifies, yet
the Ante multiplier and the final Play multiplier are both +1, because
`np.copysign(1, 0)` is +1 rather than the 0 the comments and spec intend. -/
theorem c1_tie_pays_as_win :
    evaluate_hand (encodeCard 11 3, encodeCard 11 2, encodeCard 0 3) = some 740 ∧
    evaluate_hand (encodeCard 11 1, encodeCard 11 0, encodeCard 0 2) = some 740 ∧
    (generateMultipliersCell ⟨0, 0, 0, 0, 0, 0⟩ (fun _ _ => 0)
        (encodeCard 11 3, encodeCard 11 2, encodeCard 0 3) 740 740
        (encodeCard 11 1, encodeCard 11 0, encodeCard 0 2)).ante = 1 ∧
    (generateMultipliersCell ⟨0, 0, 0, 0, 0, 0⟩ (fun _ _ => 0)
        (encodeCard 11 3, encodeCard 11 2, encodeCard 0 3) 740 740
        (encodeCard 11 1, encodeCard 11 0, encodeCard 0 2)).play = 1 := by
  refine ⟨by rfl, by rfl, ?_, ?_⟩ <;>
  · simp only [generateMultipliersCell, playDecision, np_copysign, ACE_HIGH_eq, QUEEN_HIGH_eq]
    norm_num

/-- Claim C5: whenever the house-way decision on the player's value and the
dealer's face-up card is a fold, the Play multiplier is 0, the Ante
multiplier is −1 and the Pair-Plus multiplier is −1. -/
theorem c5_fold_forfeits (b : SixCardBounds) (orc : Hand → Hand → Int) (dh : Hand)
    (D P : Int) (ph : Hand) (hfold : playDecision P (rankOfCard dh.1) = 0) :
    (generateMultipliersCell b orc dh D P ph).play = 0 ∧
      (generateMultipliersCell b orc dh D P ph).ante = -1 ∧
      (generateMultipliersCell b orc dh D P ph).pairPlus = -1 := by
  simp only [generateMultipliersCell, pairPlusMult, hfold]
  refine ⟨?_, ?_, ?_⟩
  · split <;> simp
  · simp
  · simp

/-- Witness for C5: the worst high-card hand (value 1146) folds against an
ace face-up card, forfeiting Ante and Pair-Plus with no Play action. -/
theorem c5_fold_forfeits_witness :
    playDecision 1146 (rankOfCard (encodeCard 12 3, encodeCard 0 2, encodeCard 2 2).1) = 0 ∧
      ((generateMultipliersCell ⟨0, 0, 0, 0, 0, 0⟩ (fun _ _ => 0)
          (encodeCard 12 3, encodeCard 0 2, encodeCard 2 2) 500 1146
          (encodeCard 3 3, encodeCard 1 2, encodeCard 0 2)).play = 0 ∧
        (generateMultipliersCell ⟨0, 0, 0, 0, 0, 0⟩ (fun _ _ => 0)
          (encodeCard 12 3, encodeCard 0 2, encodeCard 2 2) 500 1146
          (encodeCard 3 3, encodeCard 1 2, encodeCard 0 2)).ante = -1 ∧
        (generateMultipliersCell ⟨0, 0, 0, 0, 0, 0⟩ (fun _ _ => 0)
          (encodeCard 12 3, encodeCard 0 2, encodeCard 2 2) 500 1146
          (encodeCard 3 3, encodeCard 1 2, encodeCard 0 2)).pairPlus = -1) := by
  have hfold : playDecision 1146 (rankOfCard (encodeCard 12 3, encodeCard 0 2,
      encodeCard 2 2).1) = 0 := by
    unfold playDecision
    rw [ACE_HIGH_eq, KING_HIGH_eq, QUEEN_HIGH_eq]
    norm_num
  exact ⟨hfold, c5_fold_forfeits _ _ _ _ _ _ hfold⟩

/-- Claim C4: for a played hand of evaluated value `P ≥ 1`, the Pair-Plus
multiplier follows the band table keyed on upper bounds, with 50 exactly at
the single top value 1. -/
theorem c4_pair_plus_bands (b : SixCardBounds) (orc : Hand → Hand → Int) (dh : Hand)
    (D P : Int) (ph : Hand) (hplay : playDecision P (rankOfCard dh.1) ≠ 0) (hpos : 1 ≤ P) :
    (P > (MAX_PAIR : Int) → (generateMultipliersCell b orc dh D P ph).pairPlus = -1) ∧
    ((MAX_FLUSH : Int) < P ∧ P ≤ (MAX_PAIR : Int) →
      (generateMultipliersCell b orc dh D P ph).pairPlus = 1) ∧
    ((MAX_STRAIGHT : Int) < P ∧ P ≤ (MAX_FLUSH : Int) →
      (generateMultipliersCell b orc dh D P ph).pairPlus = 3) ∧
    ((MAX_TRIPS : Int) < P ∧ P ≤ (MAX_STRAIGHT : Int) →
      (generateMultipliersCell b orc dh D P ph).pairPlus = 6) ∧
    ((MAX_STRAIGHT_FLUSH : Int) < P ∧ P ≤ (MAX_TRIPS : Int) →
      (generateMultipliersCell b orc dh D P ph).pairPlus = 30) ∧
    (1 < P ∧ P ≤ (MAX_STRAIGHT_FLUSH : Int) →
      (generateMultipliersCell b orc dh D P ph).pairPlus = 40) ∧
    ((generateMultipliersCell b orc dh D P ph).pairPlus = 50 ↔ P = 1) := by
  simp only [generateMultipliersCell, pairPlusMult, if_neg hplay, MAX_PAIR, MAX_FLUSH,
    MAX_STRAIGHT, MAX_TRIPS, MAX_STRAIGHT_FLUSH, Nat.cast_ofNat]
  refine ⟨?_, ?_, ?_, ?_, ?_, ?_, ?_⟩ <;>
  · first
    | (intro h; split_ifs <;> omega)
    | (constructor
       · intro h; split_ifs at h <;> omega
       · intro h; split_ifs <;> omega)

/-- Witness for C4 at the top-ranked played hand value 1. -/
theorem c4_pair_plus_bands_witness :
    (playDecision 1 (rankOfCard (encodeCard 12 3, encodeCard 0 2, encodeCard 2 2).1) ≠ 0 ∧
        (1 : Int) ≤ 1) ∧
      (generateMultipliersCell ⟨0, 0, 0, 0, 0, 0⟩ (fun _ _ => 0)
          (encodeCard 12 3, encodeCard 0 2, encodeCard 2 2) 500 1
          (encodeCard 3 3, encodeCard 1 2, encodeCard 0 2)).pairPlus = 50 := by
  have hplay : playDecision 1 (rankOfCard (encodeCard 12 3, encodeCard 0 2,
      encodeCard 2 2).1) ≠ 0 := by
    unfold playDecision
    rw [ACE_HIGH_eq]
    norm_num
  refine ⟨⟨hplay, le_refl 1⟩, ?_⟩
  exact (c4_pair_plus_bands ⟨0, 0, 0, 0, 0, 0⟩ (fun _ _ => 0) _ 500 1 _ hplay (le_refl 1)).2.2.2.2.2.2.mpr rfl

/-- Claim C8: the house-way decision plays exactly when the player value is
within the ace-high threshold, or within the king-high threshold against a
face-up rank below ace, or within the queen-high threshold against a
face-up rank below king. -/
theorem c8_house_way (P : Int) (dh : Hand) :
    playDecision P (rankOfCard dh.1) =
      if P ≤ ACE_HIGH ∨ (P ≤ KING_HIGH ∧ rankOfCard dh.1 < ACE) ∨
          (P ≤ QUEEN_HIGH ∧ rankOfCard dh.1 < KING) then 1 else 0 := by
  unfold playDecision
  by_cases hA : P ≤ ACE_HIGH
  · simp [hA]
  · by_cases hK : P ≤ KING_HIGH
    · by_cases fA : rankOfCard dh.1 < ACE
      · simp [hA, hK, fA]
      · have fK : ¬(rankOfCard dh.1 < KING) := by
          rw [KING_eq]
          rw [ACE_eq] at fA
          omega
        simp [hA, hK, fA, fK]
    · by_cases hQ : P ≤ QUEEN_HIGH
      · by_cases fK : rankOfCard dh.1 < KING
        · simp [hA, hK, hQ, fK]
        · simp [hA, hK, hQ, fK]
      · simp [hA, hK, hQ]

/-- Claim C10: the 6-card multiplier is the payout sweep of the oracle value
of the dealer's three cards with the player's three, and is unchanged under
any other dealer value or player value — in particular under a fold. -/
theorem c10_six_card_ignores_play (b : SixCardBounds) (orc : Hand → Hand → Int)
    (dh : Hand) (D P D2 P2 : Int) (ph : Hand) :
    (generateMultipliersCell b orc dh D P ph).sixCard = sixSweep b (orc dh ph) ∧
      (generateMultipliersCell b orc dh D P ph).sixCard =
        (generateMultipliersCell b orc dh D2 P2 ph).sixCard :=
  ⟨rfl, rfl⟩

end ThreeCard
